import Mathlib

/-!
Verification development for the contact-form API (validation, sanitization,
spam filtering, rate limiting and request handling from src/shared/validation.ts,
src/shared/email-service.ts and src/functions/contact-form/index.ts).

Pure functions of the TypeScript source are embedded as Lean functions.
Machine integers are modelled as Int (JavaScript timestamps), strings as
Lean String over List Char.  The third-party libraries Joi and DOMPurify are
not part of the repository; where their behaviour decides a property they
are modelled from the specification document, and the corresponding
definitions say so in their doc comments.
-/

set_option maxHeartbeats 1000000

namespace ContactForm

/-! ### Generic list helpers -/

/-- Boolean test that `p` is a prefix of `l`. -/
def pre : List Char → List Char → Bool
  | [], _ => true
  | _ :: _, [] => false
  | a :: p, b :: l => a == b && pre p l

theorem pre_iff : ∀ (p l : List Char), pre p l = true ↔ ∃ t, l = p ++ t := by
  intro p
  induction p with
  | nil => intro l; simp [pre]
  | cons a p ih =>
    intro l
    cases l with
    | nil => simp [pre]
    | cons b l =>
      simp only [pre, Bool.and_eq_true, beq_iff_eq]
      constructor
      · rintro ⟨rfl, h⟩
        obtain ⟨t, rfl⟩ := (ih l).mp h
        exact ⟨t, rfl⟩
      · rintro ⟨t, ht⟩
        injection ht with h1 h2
        exact ⟨h1.symm, (ih l).mpr ⟨t, h2⟩⟩

theorem pre_append (p t : List Char) : pre p (p ++ t) = true :=
  (pre_iff p (p ++ t)).mpr ⟨t, rfl⟩

/-- `getD` is the default-valued head of the dropped list. -/
theorem getD_eq_headD_drop (l : List Char) (n : Nat) (d : Char) :
    l.getD n d = (l.drop n).headD d := by
  induction l generalizing n with
  | nil => simp
  | cons c rest ih =>
    cases n with
    | zero => simp
    | succ n => simp only [List.getD_cons_succ, List.drop_succ_cons]; exact ih n

/-! ### HTML sanitizer model

DOMPurify is an external dependency whose implementation is not in the
repository.  Modelled from the spec: the sanitizer parses the input into
text and tag tokens, drops every tag not on the allow-list together with
its attributes, and re-serializes; text is HTML-entity encoded on output
and known entities are decoded on input.  `sanitizeHtml` keeps the
allow-list p/br/strong/em/u with no attributes (ALLOWED_TAGS of the source);
`sanitizeField` is the strict no-tag mode the spec assigns to the
contact-form fields name/email/subject/message. -/

inductive Tok where
  | text (c : Char)
  | tag (name : String) (close : Bool)
deriving DecidableEq, Repr

def quotChar : Char := Char.ofNat 34

def apoChar : Char := Char.ofNat 39

def ampRest : List Char := ['a', 'm', 'p', ';']

def ltRest : List Char := ['l', 't', ';']

def gtRest : List Char := ['g', 't', ';']

def quotRest : List Char := ['q', 'u', 'o', 't', ';']

/-- Index of the first closing angle bracket, if any. -/
def findGt : List Char → Option Nat
  | [] => none
  | c :: rest => if c = '>' then some 0 else (findGt rest).map (· + 1)

/-- After an opening angle bracket, a tag begins with a slash or a letter. -/
def isTagStart : List Char → Bool
  | [] => false
  | c :: _ => c == '/' || c.isAlpha

/-- Build a tag token from the raw characters between the angle brackets:
leading slash marks a closing tag, the name is the leading run of letters,
lower-cased; everything after the name (attributes) is dropped. -/
def mkTag (raw : List Char) : Tok :=
  let close := raw.head? == some '/'
  let body := if close then raw.tail else raw
  Tok.tag (String.mk ((body.takeWhile Char.isAlpha).map Char.toLower)) close

/-- Fuel-driven tokenizer; fuel exceeding the input length never runs out. -/
def tokenizeF : Nat → List Char → List Tok
  | 0, _ => []
  | _ + 1, [] => []
  | f + 1, c :: rest =>
    if c = '<' then
      if isTagStart rest then
        match findGt rest with
        | some g => mkTag (rest.take g) :: tokenizeF f (rest.drop (g + 1))
        | none => []
      else Tok.text '<' :: tokenizeF f rest
    else if c = '&' then
      if pre ampRest rest then Tok.text '&' :: tokenizeF f (rest.drop 4)
      else if pre ltRest rest then Tok.text '<' :: tokenizeF f (rest.drop 3)
      else if pre gtRest rest then Tok.text '>' :: tokenizeF f (rest.drop 3)
      else if pre quotRest rest then Tok.text quotChar :: tokenizeF f (rest.drop 5)
      else Tok.text '&' :: tokenizeF f rest
    else Tok.text c :: tokenizeF f rest

def tokenize (l : List Char) : List Tok := tokenizeF (l.length + 1) l

theorem tokenizeF_irrel : ∀ (f g : Nat) (l : List Char),
    l.length < f → l.length < g → tokenizeF f l = tokenizeF g l := by
  intro f
  induction f with
  | zero => intro g l h1 _; exact absurd h1 (Nat.not_lt_zero _)
  | succ f ih =>
    intro g l h1 h2
    cases g with
    | zero => exact absurd h2 (Nat.not_lt_zero _)
    | succ g =>
      cases l with
      | nil => rfl
      | cons c rest =>
        have hr : rest.length < f := by simp at h1; omega
        have hg : rest.length < g := by simp at h2; omega
        simp only [tokenizeF]
        by_cases hc : c = '<'
        · simp only [if_pos hc]
          cases hts : isTagStart rest with
          | false => simp only [hts, Bool.false_eq_true, if_false]; rw [ih g rest hr hg]
          | true =>
            simp only [hts, if_true]
            cases hfg : findGt rest with
            | none => simp
            | some g2 =>
              have hd : (rest.drop (g2 + 1)).length < f := by
                simp [List.length_drop]; omega
              have hd2 : (rest.drop (g2 + 1)).length < g := by
                simp [List.length_drop]; omega
              simp only []
              rw [ih g (rest.drop (g2 + 1)) hd hd2]
        · simp only [if_neg hc]
          by_cases ha : c = '&'
          · simp only [if_pos ha]
            by_cases h4 : pre ampRest rest = true
            · have : (rest.drop 4).length < f := by simp [List.length_drop]; omega
              have h2' : (rest.drop 4).length < g := by simp [List.length_drop]; omega
              simp only [h4, if_true]
              rw [ih g _ this h2']
            · simp only [h4]
              by_cases h3 : pre ltRest rest = true
              · have : (rest.drop 3).length < f := by simp [List.length_drop]; omega
                have h2' : (rest.drop 3).length < g := by simp [List.length_drop]; omega
                simp only [h3, if_true, if_false]
                rw [ih g _ this h2']
                simp
              · simp only [h3]
                by_cases hgt : pre gtRest rest = true
                · have : (rest.drop 3).length < f := by simp [List.length_drop]; omega
                  have h2' : (rest.drop 3).length < g := by simp [List.length_drop]; omega
                  simp only [hgt, if_true, if_false]
                  rw [ih g _ this h2']
                  simp
                · simp only [hgt]
                  by_cases hq : pre quotRest rest = true
                  · have : (rest.drop 5).length < f := by simp [List.length_drop]; omega
                    have h2' : (rest.drop 5).length < g := by simp [List.length_drop]; omega
                    simp only [hq, if_true, if_false]
                    rw [ih g _ this h2']
                    simp
                  · simp only [hq, if_false]
                    rw [ih g rest hr hg]
                    simp
          · simp only [if_neg ha]
            rw [ih g rest hr hg]

theorem tokenizeF_eq_tokenize (f : Nat) (l : List Char) (h : l.length < f) :
    tokenizeF f l = tokenize l :=
  tokenizeF_irrel f (l.length + 1) l h (Nat.lt_succ_self _)

/-- Entity encoding of one text character for serialization. -/
def encodeChar (c : Char) : List Char :=
  if c = '<' then '&' :: ltRest
  else if c = '>' then '&' :: gtRest
  else if c = '&' then '&' :: ampRest
  else [c]

/-- Canonical serialization of a token; attributes are never emitted. -/
def serializeTok : Tok → List Char
  | Tok.text c => encodeChar c
  | Tok.tag n close => '<' :: ((if close then ['/'] else []) ++ n.data ++ ['>'])

/-- ALLOWED_TAGS of sanitizeHtml in the source. -/
def allowedTags : List String := ["p", "br", "strong", "em", "u"]

def keepTok (A : List String) : Tok → Bool
  | Tok.text _ => true
  | Tok.tag n _ => decide (n ∈ A)

/-- Sanitize with a given tag allow-list: tokenize, filter, re-serialize. -/
def sanitizeWith (A : List String) (s : String) : String :=
  String.mk ((((tokenize s.data).filter (keepTok A)).map serializeTok).flatten)

/-- Embeds sanitizeHtml of the source (DOMPurify with ALLOWED_TAGS p, br,
strong, em, u and ALLOWED_ATTR empty). -/
def sanitizeHtml (s : String) : String := sanitizeWith allowedTags s

/-- Modelled from the spec: the strict no-tag sanitizer mode applied to the
contact-form fields by validateContactForm. -/
def sanitizeField (s : String) : String := sanitizeWith [] s

def TokOK : Tok → Prop
  | Tok.text _ => True
  | Tok.tag n _ => n ∈ allowedTags

theorem tokF_amp (f : Nat) (r : List Char) :
    tokenizeF (f + 1) ('&' :: (ampRest ++ r)) = Tok.text '&' :: tokenizeF f r := rfl

theorem tokF_lt (f : Nat) (r : List Char) :
    tokenizeF (f + 1) ('&' :: (ltRest ++ r)) = Tok.text '<' :: tokenizeF f r := rfl

theorem tokF_gt (f : Nat) (r : List Char) :
    tokenizeF (f + 1) ('&' :: (gtRest ++ r)) = Tok.text '>' :: tokenizeF f r := rfl

theorem tokF_plain (f : Nat) (c : Char) (r : List Char) (h1 : ¬c = '<') (h2 : ¬c = '&') :
    tokenizeF (f + 1) (c :: r) = Tok.text c :: tokenizeF f r := by
  simp [tokenizeF, h1, h2]

theorem tokF_p_open (f : Nat) (r : List Char) :
    tokenizeF (f + 1) ('<' :: 'p' :: '>' :: r) = Tok.tag "p" false :: tokenizeF f r := rfl

theorem tokF_p_close (f : Nat) (r : List Char) :
    tokenizeF (f + 1) ('<' :: '/' :: 'p' :: '>' :: r) = Tok.tag "p" true :: tokenizeF f r := rfl

theorem tokF_br_open (f : Nat) (r : List Char) :
    tokenizeF (f + 1) ('<' :: 'b' :: 'r' :: '>' :: r) = Tok.tag "br" false :: tokenizeF f r := rfl

theorem tokF_br_close (f : Nat) (r : List Char) :
    tokenizeF (f + 1) ('<' :: '/' :: 'b' :: 'r' :: '>' :: r) =
      Tok.tag "br" true :: tokenizeF f r := rfl

theorem tokF_strong_open (f : Nat) (r : List Char) :
    tokenizeF (f + 1) ('<' :: 's' :: 't' :: 'r' :: 'o' :: 'n' :: 'g' :: '>' :: r) =
      Tok.tag "strong" false :: tokenizeF f r := rfl

theorem tokF_strong_close (f : Nat) (r : List Char) :
    tokenizeF (f + 1) ('<' :: '/' :: 's' :: 't' :: 'r' :: 'o' :: 'n' :: 'g' :: '>' :: r) =
      Tok.tag "strong" true :: tokenizeF f r := rfl

theorem tokF_em_open (f : Nat) (r : List Char) :
    tokenizeF (f + 1) ('<' :: 'e' :: 'm' :: '>' :: r) = Tok.tag "em" false :: tokenizeF f r := rfl

theorem tokF_em_close (f : Nat) (r : List Char) :
    tokenizeF (f + 1) ('<' :: '/' :: 'e' :: 'm' :: '>' :: r) =
      Tok.tag "em" true :: tokenizeF f r := rfl

theorem tokF_u_open (f : Nat) (r : List Char) :
    tokenizeF (f + 1) ('<' :: 'u' :: '>' :: r) = Tok.tag "u" false :: tokenizeF f r := rfl

theorem tokF_u_close (f : Nat) (r : List Char) :
    tokenizeF (f + 1) ('<' :: '/' :: 'u' :: '>' :: r) = Tok.tag "u" true :: tokenizeF f r := rfl

theorem tok_text (c : Char) (r : List Char) :
    tokenize (encodeChar c ++ r) = Tok.text c :: tokenize r := by
  by_cases h1 : c = '<'
  · subst h1
    show tokenize ('&' :: (ltRest ++ r)) = _
    rw [← tokenizeF_eq_tokenize ((ltRest ++ r).length + 1 + 1) _
          (by simp only [List.length_cons, List.length_append, ltRest]; omega),
        tokF_lt, tokenizeF_eq_tokenize _ _
          (by simp only [List.length_cons, List.length_append, ltRest]; omega)]
  · by_cases h2 : c = '>'
    · subst h2
      show tokenize ('&' :: (gtRest ++ r)) = _
      rw [← tokenizeF_eq_tokenize ((gtRest ++ r).length + 1 + 1) _
            (by simp only [List.length_cons, List.length_append, gtRest]; omega),
          tokF_gt, tokenizeF_eq_tokenize _ _
            (by simp only [List.length_cons, List.length_append, gtRest]; omega)]
    · by_cases h3 : c = '&'
      · subst h3
        show tokenize ('&' :: (ampRest ++ r)) = _
        rw [← tokenizeF_eq_tokenize ((ampRest ++ r).length + 1 + 1) _
              (by simp only [List.length_cons, List.length_append, ampRest]; omega),
            tokF_amp, tokenizeF_eq_tokenize _ _
              (by simp only [List.length_cons, List.length_append, ampRest]; omega)]
      · have e : encodeChar c = [c] := by simp [encodeChar, h1, h2, h3]
        rw [e]
        show tokenize (c :: r) = _
        rw [← tokenizeF_eq_tokenize (r.length + 1 + 1) _
              (by simp only [List.length_cons]; omega),
            tokF_plain _ _ _ h1 h3, tokenizeF_eq_tokenize _ _ (by omega)]

theorem tok_tag (n : String) (b : Bool) (hn : n ∈ allowedTags) (r : List Char) :
    tokenize (serializeTok (Tok.tag n b) ++ r) = Tok.tag n b :: tokenize r := by
  fin_cases hn <;> cases b
  · show tokenize ('<' :: 'p' :: '>' :: r) = _
    rw [← tokenizeF_eq_tokenize (r.length + 3 + 1) ('<' :: 'p' :: '>' :: r)
          (by simp only [List.length_cons]; omega),
        tokF_p_open, tokenizeF_eq_tokenize (r.length + 3) r (by omega)]
  · show tokenize ('<' :: '/' :: 'p' :: '>' :: r) = _
    rw [← tokenizeF_eq_tokenize (r.length + 4 + 1) ('<' :: '/' :: 'p' :: '>' :: r)
          (by simp only [List.length_cons]; omega),
        tokF_p_close, tokenizeF_eq_tokenize (r.length + 4) r (by omega)]
  · show tokenize ('<' :: 'b' :: 'r' :: '>' :: r) = _
    rw [← tokenizeF_eq_tokenize (r.length + 4 + 1) ('<' :: 'b' :: 'r' :: '>' :: r)
          (by simp only [List.length_cons]; omega),
        tokF_br_open, tokenizeF_eq_tokenize (r.length + 4) r (by omega)]
  · show tokenize ('<' :: '/' :: 'b' :: 'r' :: '>' :: r) = _
    rw [← tokenizeF_eq_tokenize (r.length + 5 + 1) ('<' :: '/' :: 'b' :: 'r' :: '>' :: r)
          (by simp only [List.length_cons]; omega),
        tokF_br_close, tokenizeF_eq_tokenize (r.length + 5) r (by omega)]
  · show tokenize ('<' :: 's' :: 't' :: 'r' :: 'o' :: 'n' :: 'g' :: '>' :: r) = _
    rw [← tokenizeF_eq_tokenize (r.length + 8 + 1) ('<' :: 's' :: 't' :: 'r' :: 'o' :: 'n' :: 'g' :: '>' :: r)
          (by simp only [List.length_cons]; omega),
        tokF_strong_open, tokenizeF_eq_tokenize (r.length + 8) r (by omega)]
  · show tokenize ('<' :: '/' :: 's' :: 't' :: 'r' :: 'o' :: 'n' :: 'g' :: '>' :: r) = _
    rw [← tokenizeF_eq_tokenize (r.length + 9 + 1) ('<' :: '/' :: 's' :: 't' :: 'r' :: 'o' :: 'n' :: 'g' :: '>' :: r)
          (by simp only [List.length_cons]; omega),
        tokF_strong_close, tokenizeF_eq_tokenize (r.length + 9) r (by omega)]
  · show tokenize ('<' :: 'e' :: 'm' :: '>' :: r) = _
    rw [← tokenizeF_eq_tokenize (r.length + 4 + 1) ('<' :: 'e' :: 'm' :: '>' :: r)
          (by simp only [List.length_cons]; omega),
        tokF_em_open, tokenizeF_eq_tokenize (r.length + 4) r (by omega)]
  · show tokenize ('<' :: '/' :: 'e' :: 'm' :: '>' :: r) = _
    rw [← tokenizeF_eq_tokenize (r.length + 5 + 1) ('<' :: '/' :: 'e' :: 'm' :: '>' :: r)
          (by simp only [List.length_cons]; omega),
        tokF_em_close, tokenizeF_eq_tokenize (r.length + 5) r (by omega)]
  · show tokenize ('<' :: 'u' :: '>' :: r) = _
    rw [← tokenizeF_eq_tokenize (r.length + 3 + 1) ('<' :: 'u' :: '>' :: r)
          (by simp only [List.length_cons]; omega),
        tokF_u_open, tokenizeF_eq_tokenize (r.length + 3) r (by omega)]
  · show tokenize ('<' :: '/' :: 'u' :: '>' :: r) = _
    rw [← tokenizeF_eq_tokenize (r.length + 4 + 1) ('<' :: '/' :: 'u' :: '>' :: r)
          (by simp only [List.length_cons]; omega),
        tokF_u_close, tokenizeF_eq_tokenize (r.length + 4) r (by omega)]

theorem tokenize_flatten (ts : List Tok) (h : ∀ t ∈ ts, TokOK t) :
    tokenize ((ts.map serializeTok).flatten) = ts := by
  induction ts with
  | nil => rfl
  | cons t ts ih =>
    have ht : TokOK t := h t (List.mem_cons_self _ _)
    have hts : ∀ x ∈ ts, TokOK x := fun x hx => h x (List.mem_cons_of_mem _ hx)
    simp only [List.map_cons, List.flatten_cons]
    cases t with
    | text c =>
      show tokenize (encodeChar c ++ _) = _
      rw [tok_text, ih hts]
    | tag n b => rw [tok_tag n b ht, ih hts]

theorem keep_TokOK (A : List String) (hA : ∀ x ∈ A, x ∈ allowedTags) (t : Tok)
    (h : keepTok A t = true) : TokOK t := by
  cases t with
  | text c => trivial
  | tag n b => exact hA n (of_decide_eq_true h)

theorem sanitizeWith_idem (A : List String) (hA : ∀ x ∈ A, x ∈ allowedTags) (s : String) :
    sanitizeWith A (sanitizeWith A s) = sanitizeWith A s := by
  show String.mk _ = String.mk _
  unfold sanitizeWith
  rw [show (String.mk ((((tokenize s.data).filter (keepTok A)).map serializeTok).flatten)).data
        = (((tokenize s.data).filter (keepTok A)).map serializeTok).flatten from rfl]
  rw [tokenize_flatten _ (fun t ht => keep_TokOK A hA t (List.mem_filter.mp ht).2)]
  rw [List.filter_filter]
  simp

theorem encodeChar_no_lt (c : Char) : '<' ∉ encodeChar c := by
  by_cases h1 : c = '<'
  · subst h1; decide
  · by_cases h2 : c = '>'
    · subst h2; decide
    · by_cases h3 : c = '&'
      · subst h3; decide
      · have e : encodeChar c = [c] := by simp [encodeChar, h1, h2, h3]
        rw [e]
        intro hm
        rcases List.mem_singleton.mp hm with h
        exact h1 h.symm

theorem sanitizeField_no_lt (s : String) : '<' ∉ (sanitizeField s).data := by
  intro hmem
  unfold sanitizeField sanitizeWith at hmem
  rw [show (String.mk ((((tokenize s.data).filter (keepTok [])).map serializeTok).flatten)).data
        = (((tokenize s.data).filter (keepTok [])).map serializeTok).flatten from rfl] at hmem
  obtain ⟨l, hl, hcl⟩ := List.mem_flatten.mp hmem
  obtain ⟨t, ht, rfl⟩ := List.mem_map.mp hl
  have hk : keepTok [] t = true := (List.mem_filter.mp ht).2
  cases t with
  | text c => exact encodeChar_no_lt c hcl
  | tag n b => simp [keepTok] at hk


/-! ### Validation model (contactFormSchema and validateContactForm)

The Joi library is an external dependency; its rule semantics (trim
conversion, required/empty handling, the email syntax test) are modelled
from the spec, while the schema itself (fields, bounds, charset, custom
messages) is embedded from the source. -/

/-- JavaScript-style whitespace (approximated by the ASCII whitespace set). -/
def wsChar (c : Char) : Bool := c.isWhitespace

def trimChars (l : List Char) : List Char :=
  ((l.dropWhile wsChar).reverse.dropWhile wsChar).reverse

/-- Model of the JavaScript string trim performed by the Joi trim rule. -/
def jsTrim (s : String) : String := String.mk (trimChars s.data)

/-- Character class of the name pattern of the schema:
letters, whitespace, hyphen, apostrophe, period. -/
def nameChar (c : Char) : Bool :=
  c.isAlpha || wsChar c || c == '-' || c == apoChar || c == '.'

def splitOnChar (c : Char) : List Char → List (List Char)
  | [] => [[]]
  | x :: xs =>
    let r := splitOnChar c xs
    if x == c then [] :: r
    else
      match r with
      | [] => [[x]]
      | h :: t => (x :: h) :: t

def atextChar (c : Char) : Bool :=
  c.isAlphanum || ['!', '#', '$', '%', '&', '*', '+', '/', '=', '?', '^', '_', '.', '-'].contains c

def domChar (c : Char) : Bool := c.isAlphanum || c == '-'

/-- Modelled from the spec: the Joi email rule (implementation not in the
repository) — valid email syntax with a local part and two-plus nonempty
domain segments. -/
def emailOk (s : String) : Bool :=
  match splitOnChar '@' s.data with
  | [lp, dom] =>
    !lp.isEmpty && lp.all atextChar &&
      (let segs := splitOnChar '.' dom
       decide (2 ≤ segs.length) && segs.all fun sg => !sg.isEmpty && sg.all domChar)
  | _ => false

structure VErr where
  field : String
  message : String
deriving DecidableEq, Repr

structure ContactFormRequest where
  name : String
  email : String
  subject : Option String
  message : String
deriving DecidableEq, Repr

structure VResult where
  isValid : Bool
  sanitizedData : Option ContactFormRequest
  errors : Option (List VErr)
deriving DecidableEq, Repr

inductive FieldVal where
  | str (s : String)
  | nonString
deriving DecidableEq, Repr

/-- An arbitrary untrusted input value: either not an object, or an object
with the four recognized fields (unknown fields are stripped by the schema,
so they are not represented); each field is absent, a string, or present
with a non-string value. -/
inductive JsInput where
  | nonObject
  | obj (name email subject message : Option FieldVal)
deriving DecidableEq, Repr

/-- The name rule chain of contactFormSchema: trim, required, min 1,
max 100, pattern. -/
def validateName : Option FieldVal → List VErr × Option String
  | none => ([⟨"name", "\"name\" is required"⟩], none)
  | some FieldVal.nonString => ([⟨"name", "\"name\" must be a string"⟩], none)
  | some (FieldVal.str s) =>
    let t := jsTrim s
    if t = "" then ([⟨"name", "Name is required"⟩], none)
    else
      let errs :=
        (if 100 < t.length then [⟨"name", "Name must be less than 100 characters"⟩] else [])
          ++ (if t.data.all nameChar then [] else [⟨"name", "Name contains invalid characters"⟩])
      (errs, if errs.isEmpty then some t else none)

/-- The email rule chain of contactFormSchema: required, email syntax,
max 254. -/
def validateEmail : Option FieldVal → List VErr × Option String
  | none => ([⟨"email", "\"email\" is required"⟩], none)
  | some FieldVal.nonString => ([⟨"email", "\"email\" must be a string"⟩], none)
  | some (FieldVal.str s) =>
    if s = "" then ([⟨"email", "Email is required"⟩], none)
    else
      let errs :=
        (if emailOk s then [] else [⟨"email", "Please provide a valid email address"⟩])
          ++ (if 254 < s.length then [⟨"email", "Email must be less than 254 characters"⟩] else [])
      (errs, if errs.isEmpty then some s else none)

/-- The subject rule chain of contactFormSchema: optional, trim, empty
allowed, max 200. -/
def validateSubject : Option FieldVal → List VErr × Option String
  | none => ([], none)
  | some FieldVal.nonString => ([⟨"subject", "\"subject\" must be a string"⟩], none)
  | some (FieldVal.str s) =>
    let t := jsTrim s
    if 200 < t.length then ([⟨"subject", "Subject must be less than 200 characters"⟩], none)
    else ([], some t)

/-- The message rule chain of contactFormSchema: trim, required, min 10,
max 5000. -/
def validateMessage : Option FieldVal → List VErr × Option String
  | none => ([⟨"message", "\"message\" is required"⟩], none)
  | some FieldVal.nonString => ([⟨"message", "\"message\" must be a string"⟩], none)
  | some (FieldVal.str s) =>
    let t := jsTrim s
    if t = "" then ([⟨"message", "Message is required"⟩], none)
    else
      let errs :=
        (if t.length < 10 then [⟨"message", "Message must be at least 10 characters long"⟩] else [])
          ++ (if 5000 < t.length then [⟨"message", "Message must be less than 5000 characters"⟩] else [])
      (errs, if errs.isEmpty then some t else none)

/-- Embeds validateContactForm of the source: Joi validation with
abortEarly false (errors of all fields are collected, in schema key order)
and stripUnknown, followed by sanitization of each field on success;
an empty validated subject maps to an absent subject. -/
def validateContactForm (d : JsInput) : VResult :=
  match d with
  | JsInput.nonObject =>
    { isValid := false, sanitizedData := none,
      errors := some [⟨"", "\"value\" must be of type object"⟩] }
  | JsInput.obj n e su m =>
    let rn := validateName n
    let re := validateEmail e
    let rs := validateSubject su
    let rm := validateMessage m
    let errs := rn.1 ++ re.1 ++ rs.1 ++ rm.1
    if errs.isEmpty then
      match rn.2, re.2, rm.2 with
      | some a, some b, some c =>
        { isValid := true,
          sanitizedData := some
            { name := sanitizeField a, email := sanitizeField b,
              subject :=
                match rs.2 with
                | some t => if t = "" then none else some (sanitizeField t)
                | none => none,
              message := sanitizeField c },
          errors := none }
      | _, _, _ => { isValid := false, sanitizedData := none, errors := some errs }
    else { isValid := false, sanitizedData := none, errors := some errs }

theorem validateName_nil_some (n : Option FieldVal) (h : (validateName n).1 = []) :
    ∃ a, (validateName n).2 = some a := by
  cases n with
  | none => simp [validateName] at h
  | some fv =>
    cases fv with
    | nonString => simp [validateName] at h
    | str s =>
      by_cases ht : jsTrim s = ""
      · simp [validateName, ht] at h
      · by_cases hlen : 100 < (jsTrim s).length
        · simp [validateName, ht, hlen] at h
        · by_cases hpat : (jsTrim s).data.all nameChar
          · exact ⟨jsTrim s, by simp [validateName, ht, hlen, hpat]⟩
          · simp [validateName, ht, hlen, hpat] at h

theorem validateEmail_nil_some (e : Option FieldVal) (h : (validateEmail e).1 = []) :
    ∃ b, (validateEmail e).2 = some b := by
  cases e with
  | none => simp [validateEmail] at h
  | some fv =>
    cases fv with
    | nonString => simp [validateEmail] at h
    | str s =>
      by_cases hs : s = ""
      · simp [validateEmail, hs] at h
      · by_cases hem : emailOk s = true
        · by_cases hlen : 254 < s.length
          · simp [validateEmail, hs, hem, hlen] at h
          · exact ⟨s, by simp [validateEmail, hs, hem, hlen]⟩
        · simp [validateEmail, hs, hem] at h

theorem validateMessage_nil_some (m : Option FieldVal) (h : (validateMessage m).1 = []) :
    ∃ c, (validateMessage m).2 = some c := by
  cases m with
  | none => simp [validateMessage] at h
  | some fv =>
    cases fv with
    | nonString => simp [validateMessage] at h
    | str s =>
      by_cases ht : jsTrim s = ""
      · simp [validateMessage, ht] at h
      · by_cases hmin : (jsTrim s).length < 10
        · simp [validateMessage, ht, hmin] at h
        · by_cases hmax : 5000 < (jsTrim s).length
          · simp [validateMessage, ht, hmin, hmax] at h
          · exact ⟨jsTrim s, by simp [validateMessage, ht, hmin, hmax]⟩

theorem validateContactForm_cases (d : JsInput) :
    ((validateContactForm d).isValid = true ∧ (validateContactForm d).sanitizedData.isSome = true
      ∧ (validateContactForm d).errors = none)
    ∨ ((validateContactForm d).isValid = false ∧ (validateContactForm d).sanitizedData = none
      ∧ ∃ es, (validateContactForm d).errors = some es ∧ es ≠ []) := by
  cases d with
  | nonObject =>
    right
    exact ⟨rfl, rfl, ⟨_, rfl, by simp⟩⟩
  | obj n e su m =>
    by_cases he :
        (validateName n).1 ++ (validateEmail e).1 ++ (validateSubject su).1
          ++ (validateMessage m).1 = []
    · left
      have hcomp := he
      simp only [List.append_eq_nil] at hcomp
      obtain ⟨⟨⟨hn, hee⟩, hs⟩, hm⟩ := hcomp
      obtain ⟨a, ha⟩ := validateName_nil_some n hn
      obtain ⟨b, hb⟩ := validateEmail_nil_some e hee
      obtain ⟨c, hc⟩ := validateMessage_nil_some m hm
      simp [validateContactForm, hn, hee, hs, hm, ha, hb, hc]
    · right
      have hne :
          ((validateName n).1 ++ (validateEmail e).1 ++ (validateSubject su).1
            ++ (validateMessage m).1).isEmpty = false := by
        rw [List.isEmpty_eq_false]
        exact he
      have hres : validateContactForm (JsInput.obj n e su m)
          = { isValid := false, sanitizedData := none,
              errors := some ((validateName n).1 ++ (validateEmail e).1
                ++ (validateSubject su).1 ++ (validateMessage m).1) } := by
        simp only [validateContactForm, hne, Bool.false_eq_true, if_false]
      rw [hres]
      exact ⟨rfl, rfl, ⟨_, rfl, he⟩⟩


/-! ### Spam classifier (isSpam and spamPatterns)

Each regex of spamPatterns is embedded as an executable matcher over the
lower-cased content, exactly as the source tests the patterns against the
lower-cased concatenation of the fields. -/

def wordChar (c : Char) : Bool := c.isAlphanum || c == '_'

/-- Keywords of the first spam pattern. -/
def kwListA : List String :=
  ["viagra", "cialis", "casino", "poker", "lottery", "winner", "congratulations"]

/-- Keyword phrases of the second spam pattern. -/
def kwListB : List String :=
  ["click here", "free money", "make money fast", "work from home"]

/-- Word boundary before position i. -/
def boundaryAt (l : List Char) (i : Nat) : Bool :=
  i == 0 || !wordChar (l.getD (i - 1) ' ')

/-- Word boundary at position j (end of a keyword occurrence). -/
def boundaryEnd (l : List Char) (j : Nat) : Bool :=
  decide (l.length ≤ j) || !wordChar (l.getD j ' ')

/-- The keyword kw occurs at position i with word boundaries on both sides. -/
def kwAt (l kw : List Char) (i : Nat) : Bool :=
  pre kw (l.drop i) && boundaryAt l i && boundaryEnd l (i + kw.length)

def hasKw (kws : List String) (l : List Char) : Bool :=
  kws.any fun kw => (List.range (l.length + 1)).any fun i => kwAt l kw.data i

def httpScheme : List Char := ['h', 't', 't', 'p', ':', '/', '/']

def httpsScheme : List Char := ['h', 't', 't', 'p', 's', ':', '/', '/']

/-- Length of the URL scheme starting at position i, if one starts there. -/
def schemeAt (l : List Char) (i : Nat) : Option Nat :=
  if pre httpsScheme (l.drop i) then some 8
  else if pre httpScheme (l.drop i) then some 7
  else none

/-- All characters in the index interval are non-whitespace. -/
def gapClean (l : List Char) (s e : Nat) : Bool :=
  ((l.drop s).take (e - s)).all fun c => !c.isWhitespace

/-- Embeds the multiple-URL regex of the source: three URL segments, each a
scheme followed by one or more non-whitespace characters, immediately
adjacent to one another.  Three-or-more repetitions reduce to exactly three
because a trailing segment absorbs further repetitions. -/
def urlRunB (l : List Char) : Bool :=
  (List.range (l.length + 1)).any fun i =>
    match schemeAt l i with
    | none => false
    | some a =>
      (List.range (l.length + 1)).any fun j =>
        match schemeAt l j with
        | none => false
        | some b =>
          decide (i + a < j) && gapClean l (i + a) j &&
            ((List.range (l.length + 1)).any fun k =>
              match schemeAt l k with
              | none => false
              | some sc =>
                decide (j + b < k) && gapClean l (j + b) k &&
                  decide (k + sc < l.length) && !(l.getD (k + sc) ' ').isWhitespace)

/-- Embeds the repeated-character regex: a character (the regex dot, which
excludes line terminators) followed by ten more copies of itself. -/
def repeatAt (l : List Char) (i : Nat) : Bool :=
  match l.drop i with
  | [] => false
  | c :: rest => !(c == Char.ofNat 10) && !(c == Char.ofNat 13) && pre (List.replicate 10 c) rest

def repeatRunB (l : List Char) : Bool :=
  (List.range l.length).any (repeatAt l)

/-- Embeds the non-ASCII run regex: twenty consecutive characters with code
point above 127. -/
def nonAsciiAt (l : List Char) (i : Nat) : Bool :=
  let w := (l.drop i).take 20
  (w.length == 20) && w.all fun c => decide (127 < c.toNat)

def nonAsciiRunB (l : List Char) : Bool :=
  (List.range l.length).any (nonAsciiAt l)

/-- The spamPatterns array of the source, in order. -/
def spamPatternList : List (List Char → Bool) :=
  [hasKw kwListA, hasKw kwListB, urlRunB, repeatRunB, nonAsciiRunB]

def lowerStr (s : String) : String := String.mk (s.data.map Char.toLower)

/-- Embeds isSpam of the source: lower-case the content and test each spam
pattern, any single match being conclusive. -/
def isSpam (content : String) : Bool :=
  let cleanContent := lowerStr content
  spamPatternList.any fun p => p cleanContent.data

/-- Number of embedded URL scheme occurrences; the claim reading of
three-or-more embedded URLs, whether or not they are adjacent. -/
def urlCount (l : List Char) : Nat :=
  (List.range (l.length + 1)).countP fun i => (schemeAt l i).isSome

/-! Specification-side heuristic predicates, formulated declaratively; the
equivalence theorems connect them to the executable matchers. -/

def KeywordHeuristic (l : List Char) : Prop :=
  ∃ kw ∈ kwListA ++ kwListB, ∃ i, kwAt l kw.data i = true

def URLSeg (u : List Char) : Prop :=
  ∃ w, (u = httpScheme ++ w ∨ u = httpsScheme ++ w) ∧ w ≠ [] ∧
    ∀ c ∈ w, c.isWhitespace = false

def URLHeuristic (l : List Char) : Prop :=
  ∃ p u1 u2 u3 q, l = p ++ u1 ++ u2 ++ u3 ++ q ∧ URLSeg u1 ∧ URLSeg u2 ∧ URLSeg u3

def RepeatHeuristic (l : List Char) : Prop :=
  ∃ c p q, ¬c = Char.ofNat 10 ∧ ¬c = Char.ofNat 13 ∧ l = p ++ List.replicate 11 c ++ q

def NonAsciiHeuristic (l : List Char) : Prop :=
  ∃ p w q, l = p ++ w ++ q ∧ w.length = 20 ∧ ∀ c ∈ w, 127 < c.toNat


theorem hasKw_iff (kws : List String) (hne : ∀ kw ∈ kws, kw.data ≠ []) (l : List Char) :
    hasKw kws l = true ↔ ∃ kw ∈ kws, ∃ i, kwAt l kw.data i = true := by
  simp only [hasKw, List.any_eq_true, List.mem_range]
  constructor
  · rintro ⟨kw, hkw, i, _, h⟩
    exact ⟨kw, hkw, i, h⟩
  · rintro ⟨kw, hkw, i, h⟩
    refine ⟨kw, hkw, i, ?_, h⟩
    have hp : pre kw.data (l.drop i) = true := by
      have h2 := h
      simp only [kwAt, Bool.and_eq_true] at h2
      exact h2.1.1
    obtain ⟨t, ht⟩ := (pre_iff _ _).mp hp
    have hd : l.drop i ≠ [] := by
      rw [ht]
      intro hx
      rcases List.append_eq_nil.mp hx with ⟨h1, _⟩
      exact hne kw hkw h1
    by_contra hlt
    push_neg at hlt
    exact hd (List.drop_eq_nil_iff.mpr (by omega))

theorem drop_split (l : List Char) (i j : Nat) (hij : i ≤ j) :
    l.drop i = (l.drop i).take (j - i) ++ l.drop j := by
  have h1 : (l.drop i).drop (j - i) = l.drop j := by
    rw [List.drop_drop]
    congr 1
    omega
  conv_lhs => rw [← List.take_append_drop (j - i) (l.drop i)]
  rw [h1]

theorem schemeAt_some (l : List Char) (i a : Nat) (h : schemeAt l i = some a) :
    (a = 8 ∧ ∃ t, l.drop i = httpsScheme ++ t) ∨ (a = 7 ∧ ∃ t, l.drop i = httpScheme ++ t) := by
  unfold schemeAt at h
  by_cases h8 : pre httpsScheme (l.drop i) = true
  · rw [if_pos h8] at h
    injection h with h
    exact Or.inl ⟨h.symm, (pre_iff _ _).mp h8⟩
  · rw [if_neg h8] at h
    by_cases h7 : pre httpScheme (l.drop i) = true
    · rw [if_pos h7] at h
      injection h with h
      exact Or.inr ⟨h.symm, (pre_iff _ _).mp h7⟩
    · rw [if_neg h7] at h
      exact absurd h (by simp)

theorem schemeAt_of_http (l : List Char) (i : Nat) (t : List Char)
    (h : l.drop i = httpScheme ++ t) : schemeAt l i = some 7 := by
  have h8 : pre httpsScheme (httpScheme ++ t) = false := by
    simp [httpScheme, httpsScheme, pre]
  unfold schemeAt
  rw [h]
  simp [h8, pre_append]

theorem schemeAt_of_https (l : List Char) (i : Nat) (t : List Char)
    (h : l.drop i = httpsScheme ++ t) : schemeAt l i = some 8 := by
  unfold schemeAt
  rw [h]
  simp [pre_append]

theorem gap_slice (l : List Char) (i a j : Nat) (t : List Char) (hsl : a = 8 ∨ a = 7)
    (ht : l.drop i = (if a = 8 then httpsScheme else httpScheme) ++ t) :
    (l.drop (i + a)).take (j - (i + a)) = t.take (j - i - a) := by
  have hlen : (if a = 8 then httpsScheme else httpScheme).length = a := by
    rcases hsl with rfl | rfl <;> rfl
  have hdd : l.drop (i + a) = t := by
    rw [← List.drop_drop, ht, List.drop_left' hlen]
  rw [hdd]
  congr 1
  omega

theorem URLSeg_slice (l : List Char) (i j a : Nat) (hsch : schemeAt l i = some a)
    (hija : i + a < j) (hj : j ≤ l.length) (hgap : gapClean l (i + a) j = true) :
    URLSeg ((l.drop i).take (j - i)) := by
  have hmain : ∀ sch : List Char, sch.length = a →
      l.drop i = sch ++ (l.drop (i + a)) →
      (l.drop (i + a)).take (j - (i + a)) ≠ [] ∧
      (∀ c ∈ (l.drop (i + a)).take (j - (i + a)), c.isWhitespace = false) ∧
      (l.drop i).take (j - i) = sch ++ (l.drop (i + a)).take (j - (i + a)) := by
    intro sch hlen ht
    refine ⟨?_, ?_, ?_⟩
    · have hL : ((l.drop (i + a)).take (j - (i + a))).length = min (j - (i + a)) (l.length - (i + a)) := by
        rw [List.length_take, List.length_drop]
      intro hnil
      rw [hnil] at hL
      simp at hL
      omega
    · intro c hc
      unfold gapClean at hgap
      have := List.all_eq_true.mp hgap c hc
      simpa using this
    · rw [ht, show j - i = sch.length + (j - (i + a)) from by rw [hlen]; omega, List.take_append]
  rcases schemeAt_some l i a hsch with ⟨ha, t, ht⟩ | ⟨ha, t, ht⟩
  · subst ha
    have hd : l.drop i = httpsScheme ++ (l.drop (i + 8)) := by
      have : l.drop (i + 8) = t := by
        rw [← List.drop_drop, ht]
        exact List.drop_left' rfl
      rw [this, ht]
    obtain ⟨h1, h2, h3⟩ := hmain httpsScheme rfl hd
    exact ⟨_, Or.inr h3, h1, h2⟩
  · subst ha
    have hd : l.drop i = httpScheme ++ (l.drop (i + 7)) := by
      have : l.drop (i + 7) = t := by
        rw [← List.drop_drop, ht]
        exact List.drop_left' rfl
      rw [this, ht]
    obtain ⟨h1, h2, h3⟩ := hmain httpScheme rfl hd
    exact ⟨_, Or.inl h3, h1, h2⟩

theorem URLSeg_last (l : List Char) (k sc : Nat) (hsch : schemeAt l k = some sc)
    (hlt : k + sc < l.length) (hnw : (l.getD (k + sc) ' ').isWhitespace = false) :
    URLSeg ((l.drop k).take (sc + 1)) := by
  have hmain : ∀ sch : List Char, sch.length = sc →
      l.drop k = sch ++ (l.drop (k + sc)) →
      (l.drop k).take (sc + 1) = sch ++ (l.drop (k + sc)).take 1 ∧
      (l.drop (k + sc)).take 1 ≠ [] ∧
      (∀ c ∈ (l.drop (k + sc)).take 1, c.isWhitespace = false) := by
    intro sch hlen ht
    have hdne : l.drop (k + sc) ≠ [] := by
      rw [ne_eq, List.drop_eq_nil_iff]
      omega
    obtain ⟨c0, t0, hct⟩ : ∃ c0 t0, l.drop (k + sc) = c0 :: t0 := by
      rcases hd : l.drop (k + sc) with _ | ⟨c0, t0⟩
      · exact absurd hd hdne
      · exact ⟨c0, t0, rfl⟩
    have hc0 : c0.isWhitespace = false := by
      have := hnw
      rw [getD_eq_headD_drop, hct] at this
      simpa using this
    refine ⟨?_, ?_, ?_⟩
    · rw [ht, show sc + 1 = sch.length + 1 from by rw [hlen], List.take_append]
    · rw [hct]
      simp
    · intro c hc
      rw [hct] at hc
      simp only [List.take_succ_cons, List.take_zero] at hc
      rcases List.mem_singleton.mp hc with rfl
      exact hc0
  rcases schemeAt_some l k sc hsch with ⟨ha, t, ht⟩ | ⟨ha, t, ht⟩
  · subst ha
    have hd : l.drop k = httpsScheme ++ (l.drop (k + 8)) := by
      have : l.drop (k + 8) = t := by
        rw [← List.drop_drop, ht]
        exact List.drop_left' rfl
      rw [this, ht]
    obtain ⟨h1, h2, h3⟩ := hmain httpsScheme rfl hd
    exact ⟨_, Or.inr h1, h2, h3⟩
  · subst ha
    have hd : l.drop k = httpScheme ++ (l.drop (k + 7)) := by
      have : l.drop (k + 7) = t := by
        rw [← List.drop_drop, ht]
        exact List.drop_left' rfl
      rw [this, ht]
    obtain ⟨h1, h2, h3⟩ := hmain httpScheme rfl hd
    exact ⟨_, Or.inl h1, h2, h3⟩


theorem seg_facts (l : List Char) (i : Nat) (u rest : List Char)
    (hu : URLSeg u) (hd : l.drop i = u ++ rest) :
    ∃ a w, (a = 7 ∨ a = 8) ∧ u.length = a + w.length ∧ w ≠ [] ∧
      schemeAt l i = some a ∧
      l.drop (i + a) = w ++ rest ∧
      l.drop (i + u.length) = rest ∧
      (∀ c ∈ w, c.isWhitespace = false) := by
  obtain ⟨w, hu2, hwne, hw⟩ := hu
  rcases hu2 with h | h
  · have hadrop : l.drop (i + 7) = w ++ rest := by
      rw [← List.drop_drop, hd, h, List.append_assoc]
      exact List.drop_left' rfl
    refine ⟨7, w, Or.inl rfl, by rw [h]; simp [httpScheme]; omega, hwne, ?_, hadrop, ?_, hw⟩
    · apply schemeAt_of_http
      rw [hd, h, List.append_assoc]
    · have hiu : i + u.length = (i + 7) + w.length := by
        rw [h]
        simp [httpScheme]
        omega
      rw [hiu, ← List.drop_drop, hadrop]
      exact List.drop_left' rfl
  · have hadrop : l.drop (i + 8) = w ++ rest := by
      rw [← List.drop_drop, hd, h, List.append_assoc]
      exact List.drop_left' rfl
    refine ⟨8, w, Or.inr rfl, by rw [h]; simp [httpsScheme]; omega, hwne, ?_, hadrop, ?_, hw⟩
    · apply schemeAt_of_https
      rw [hd, h, List.append_assoc]
    · have hiu : i + u.length = (i + 8) + w.length := by
        rw [h]
        simp [httpsScheme]
        omega
      rw [hiu, ← List.drop_drop, hadrop]
      exact List.drop_left' rfl

theorem seg_gap (l : List Char) (i a : Nat) (w rest : List Char)
    (hadrop : l.drop (i + a) = w ++ rest) (hw : ∀ c ∈ w, c.isWhitespace = false)
    (e : Nat) (he : e = i + a + w.length) :
    gapClean l (i + a) e = true := by
  unfold gapClean
  rw [hadrop, show e - (i + a) = w.length from by omega, List.take_left]
  rw [List.all_eq_true]
  intro c hc
  simpa using hw c hc

theorem urlRunB_iff (l : List Char) : urlRunB l = true ↔ URLHeuristic l := by
  constructor
  · intro h
    simp only [urlRunB, List.any_eq_true, List.mem_range] at h
    obtain ⟨i, hi, h⟩ := h
    rcases hsi : schemeAt l i with _ | a
    · rw [hsi] at h
      simp at h
    rw [hsi] at h
    simp only [List.any_eq_true, List.mem_range] at h
    obtain ⟨j, hj, h⟩ := h
    rcases hsj : schemeAt l j with _ | b
    · rw [hsj] at h
      simp at h
    rw [hsj] at h
    simp only [Bool.and_eq_true, decide_eq_true_eq] at h
    obtain ⟨⟨hija, hgapij⟩, h⟩ := h
    simp only [List.any_eq_true, List.mem_range] at h
    obtain ⟨k, hk, h⟩ := h
    rcases hsk : schemeAt l k with _ | sc
    · rw [hsk] at h
      simp at h
    rw [hsk] at h
    simp only [Bool.and_eq_true, decide_eq_true_eq, Bool.not_eq_true'] at h
    obtain ⟨⟨⟨hjbk, hgapjk⟩, hksc⟩, hws⟩ := h
    refine ⟨l.take i, (l.drop i).take (j - i), (l.drop j).take (k - j),
      (l.drop k).take (sc + 1), l.drop (k + sc + 1), ?_, ?_, ?_, ?_⟩
    · have e1 : l = l.take i ++ l.drop i := (List.take_append_drop i l).symm
      have e2 : l.drop i = (l.drop i).take (j - i) ++ l.drop j := drop_split l i j (by omega)
      have e3 : l.drop j = (l.drop j).take (k - j) ++ l.drop k := drop_split l j k (by omega)
      have e4 : l.drop k = (l.drop k).take (sc + 1) ++ l.drop (k + sc + 1) := by
        have h5 := drop_split l k (k + sc + 1) (by omega)
        rw [show k + sc + 1 - k = sc + 1 from by omega] at h5
        exact h5
      conv_rhs => rw [List.append_assoc, List.append_assoc, List.append_assoc]
      rw [← e4, ← e3, ← e2, ← e1]
    · exact URLSeg_slice l i j a hsi hija (by omega) hgapij
    · exact URLSeg_slice l j k b hsj hjbk (by omega) hgapjk
    · exact URLSeg_last l k sc hsk hksc hws
  · rintro ⟨p, u1, u2, u3, q, heq, hs1, hs2, hs3⟩
    have hlen := congrArg List.length heq
    simp only [List.length_append] at hlen
    have hd1 : l.drop p.length = u1 ++ (u2 ++ (u3 ++ q)) := by
      rw [heq, List.append_assoc, List.append_assoc, List.append_assoc]
      exact List.drop_left _ _
    obtain ⟨a, w1, ha78, hu1len, hw1ne, hschi, hadrop1, hrest1, hw1⟩ :=
      seg_facts l p.length u1 (u2 ++ (u3 ++ q)) hs1 hd1
    obtain ⟨b, w2, hb78, hu2len, hw2ne, hschj, hadrop2, hrest2, hw2⟩ :=
      seg_facts l (p.length + u1.length) u2 (u3 ++ q) hs2 hrest1
    have hrest2' : l.drop (p.length + u1.length + u2.length) = u3 ++ q := by
      rw [show p.length + u1.length + u2.length
            = (p.length + u1.length) + u2.length from rfl] at hrest2 ⊢
      exact hrest2
    obtain ⟨sc, w3, hc78, hu3len, hw3ne, hschk, hadrop3, hrest3, hw3⟩ :=
      seg_facts l (p.length + u1.length + u2.length) u3 q hs3 hrest2'
    obtain ⟨c0, w3t, hc0⟩ : ∃ c0 w3t, w3 = c0 :: w3t := by
      rcases hw : w3 with _ | ⟨c0, w3t⟩
      · exact absurd hw hw3ne
      · exact ⟨c0, w3t, rfl⟩
    have hw1pos : 1 ≤ w1.length := by
      rcases w1 with _ | _
      · exact absurd rfl hw1ne
      · simp
    have hw2pos : 1 ≤ w2.length := by
      rcases w2 with _ | _
      · exact absurd rfl hw2ne
      · simp
    have hkscdrop : l.drop (p.length + u1.length + u2.length + sc) = w3 ++ q := hadrop3
    have hksclt : p.length + u1.length + u2.length + sc < l.length := by
      have hne : l.drop (p.length + u1.length + u2.length + sc) ≠ [] := by
        rw [hkscdrop, hc0]
        simp
      rw [ne_eq, List.drop_eq_nil_iff] at hne
      omega
    have hgetd : (l.getD (p.length + u1.length + u2.length + sc) ' ').isWhitespace = false := by
      rw [getD_eq_headD_drop, hkscdrop, hc0]
      exact hw3 c0 (by simp [hc0])
    simp only [urlRunB, List.any_eq_true, List.mem_range]
    refine ⟨p.length, by omega, ?_⟩
    simp only [hschi, List.any_eq_true, List.mem_range]
    refine ⟨p.length + u1.length, by omega, ?_⟩
    simp only [hschj, Bool.and_eq_true, decide_eq_true_eq, List.any_eq_true, List.mem_range]
    refine ⟨⟨by omega,
      seg_gap l p.length a w1 (u2 ++ (u3 ++ q)) hadrop1 hw1 _ (by omega)⟩, ?_⟩
    refine ⟨p.length + u1.length + u2.length, by omega, ?_⟩
    simp only [hschk, Bool.and_eq_true, decide_eq_true_eq, Bool.not_eq_true']
    exact ⟨⟨⟨by omega,
      seg_gap l (p.length + u1.length) b w2 (u3 ++ q) hadrop2 hw2 _ (by omega)⟩, by omega⟩, hgetd⟩

theorem replicate_eleven (c : Char) : List.replicate 11 c = c :: List.replicate 10 c := by
  rw [show (11 : Nat) = 10 + 1 from rfl, List.replicate_succ]

theorem repeatRunB_iff (l : List Char) : repeatRunB l = true ↔ RepeatHeuristic l := by
  simp only [repeatRunB, List.any_eq_true, List.mem_range]
  constructor
  · rintro ⟨i, hi, h⟩
    unfold repeatAt at h
    rcases hd : l.drop i with _ | ⟨c, rest⟩
    · rw [hd] at h
      simp at h
    rw [hd] at h
    simp only [Bool.and_eq_true, Bool.not_eq_true', beq_eq_false_iff_ne, ne_eq] at h
    obtain ⟨⟨hn, hr⟩, hp⟩ := h
    obtain ⟨t, ht⟩ := (pre_iff _ _).mp hp
    refine ⟨c, l.take i, t, hn, hr, ?_⟩
    have e2 : l.drop i = List.replicate 11 c ++ t := by
      rw [hd, ht, replicate_eleven]
      simp
    rw [List.append_assoc, ← e2, List.take_append_drop]
  · rintro ⟨c, p, q, hn, hr, heq⟩
    have hlen := congrArg List.length heq
    simp only [List.length_append, List.length_replicate] at hlen
    refine ⟨p.length, by omega, ?_⟩
    unfold repeatAt
    have hd : l.drop p.length = c :: (List.replicate 10 c ++ q) := by
      rw [heq, List.append_assoc, List.drop_left, replicate_eleven]
      simp
    rw [hd]
    simp only [Bool.and_eq_true, Bool.not_eq_true', beq_eq_false_iff_ne, ne_eq]
    exact ⟨⟨hn, hr⟩, pre_append _ _⟩

theorem nonAsciiRunB_iff (l : List Char) : nonAsciiRunB l = true ↔ NonAsciiHeuristic l := by
  simp only [nonAsciiRunB, List.any_eq_true, List.mem_range]
  constructor
  · rintro ⟨i, hi, h⟩
    unfold nonAsciiAt at h
    simp only [Bool.and_eq_true, beq_iff_eq, List.all_eq_true, decide_eq_true_eq] at h
    obtain ⟨hlen, hall⟩ := h
    refine ⟨l.take i, (l.drop i).take 20, l.drop (i + 20), ?_, hlen, hall⟩
    have e1 : l = l.take i ++ l.drop i := (List.take_append_drop i l).symm
    have e2 : l.drop i = (l.drop i).take 20 ++ l.drop (i + 20) := by
      conv_lhs => rw [← List.take_append_drop 20 (l.drop i)]
      rw [List.drop_drop]
    conv_rhs => rw [List.append_assoc]
    rw [← e2, ← e1]
  · rintro ⟨p, w, q, heq, hlen, hall⟩
    have hltot := congrArg List.length heq
    simp only [List.length_append] at hltot
    refine ⟨p.length, by omega, ?_⟩
    unfold nonAsciiAt
    have hd : l.drop p.length = w ++ q := by
      rw [heq, List.append_assoc]
      exact List.drop_left _ _
    rw [hd, List.take_left' hlen]
    simp only [Bool.and_eq_true, beq_iff_eq, List.all_eq_true, decide_eq_true_eq]
    exact ⟨hlen, hall⟩

theorem isSpam_iff (s : String) :
    isSpam s = true ↔
      (KeywordHeuristic (lowerStr s).data ∨ URLHeuristic (lowerStr s).data ∨
        RepeatHeuristic (lowerStr s).data ∨ NonAsciiHeuristic (lowerStr s).data) := by
  have hne : ∀ kws : List String, kws = kwListA ∨ kws = kwListB →
      ∀ kw ∈ kws, kw.data ≠ [] := by
    rintro kws (rfl | rfl) <;> decide
  unfold isSpam spamPatternList
  simp only [List.any_cons, List.any_nil, Bool.or_false, Bool.or_eq_true]
  constructor
  · rintro (h | h | h | h | h)
    · obtain ⟨kw, hkw, i, hh⟩ := (hasKw_iff kwListA (hne _ (Or.inl rfl)) _).mp h
      exact Or.inl ⟨kw, List.mem_append_left _ hkw, i, hh⟩
    · obtain ⟨kw, hkw, i, hh⟩ := (hasKw_iff kwListB (hne _ (Or.inr rfl)) _).mp h
      exact Or.inl ⟨kw, List.mem_append_right _ hkw, i, hh⟩
    · exact Or.inr (Or.inl ((urlRunB_iff _).mp h))
    · exact Or.inr (Or.inr (Or.inl ((repeatRunB_iff _).mp h)))
    · exact Or.inr (Or.inr (Or.inr ((nonAsciiRunB_iff _).mp h)))
  · rintro (⟨kw, hkw, i, hh⟩ | h | h | h)
    · rcases List.mem_append.mp hkw with hmem | hmem
      · exact Or.inl ((hasKw_iff kwListA (hne _ (Or.inl rfl)) _).mpr ⟨kw, hmem, i, hh⟩)
      · exact Or.inr (Or.inl ((hasKw_iff kwListB (hne _ (Or.inr rfl)) _).mpr ⟨kw, hmem, i, hh⟩))
    · exact Or.inr (Or.inr (Or.inl ((urlRunB_iff _).mpr h)))
    · exact Or.inr (Or.inr (Or.inr (Or.inl ((repeatRunB_iff _).mpr h))))
    · exact Or.inr (Or.inr (Or.inr (Or.inr ((nonAsciiRunB_iff _).mpr h))))


/-! ### Rate limiter (class RateLimiter of the source)

State is the requests map, identifier to recorded timestamps; timestamps
are JavaScript epoch milliseconds, modelled as Int. -/

def RLState := String → List Int

def emptyRL : RLState := fun _ => []

def windowMs : Int := 15 * 60 * 1000

def maxRequests : Nat := 5

/-- Embeds RateLimiter.isRateLimited: prune timestamps not strictly inside
the trailing window, return true without writing when the pruned count has
reached the cap, otherwise record now (pruned list plus now is written
back) and return false. -/
def isRateLimited (now : Int) (id : String) (st : RLState) : Bool × RLState :=
  let requestTimes := st id
  let validRequests := requestTimes.filter fun time => decide (now - windowMs < time)
  if maxRequests ≤ validRequests.length then (true, st)
  else (false, fun id2 => if id2 = id then validRequests ++ [now] else st id2)

/-- Embeds RateLimiter.getRemainingRequests: same pruning, returns
max(0, cap − count), writes nothing. -/
def getRemainingRequests (now : Int) (id : String) (st : RLState) : Nat × RLState :=
  let validRequests := (st id).filter fun time => decide (now - windowMs < time)
  ((max 0 ((maxRequests : Int) - validRequests.length)).toNat, st)

inductive RLOp where
  | rate (id : String)
  | remaining (id : String)

def runOp (st : RLState) : Int × RLOp → RLState
  | (now, RLOp.rate id) => (isRateLimited now id st).2
  | (now, RLOp.remaining id) => (getRemainingRequests now id st).2

def runOps (ops : List (Int × RLOp)) (st : RLState) : RLState :=
  ops.foldl runOp st

/-- Booleans returned by a sequence of isRateLimited calls for one id. -/
def rlChain (id : String) (st : RLState) : List Int → List Bool
  | [] => []
  | t :: ts =>
    let r := isRateLimited t id st
    r.1 :: rlChain id r.2 ts

/-! ### Request handler (contactFormFunction of the source)

The handler is embedded as a pure function of the rate-limiter state, the
current time, the generated request id, the outcome of the external
mail-send collaborator (sendFails true means sendContactEmail throws), and
the request.  The result records the response status, the response body,
and how many times the mail-send collaborator was invoked. -/

structure Req where
  method : String
  ip : String
  body : JsInput
deriving Repr

inductive RBody where
  | empty
  | success (id : String)
  | err (code msg : String)
deriving DecidableEq, Repr

structure HRes where
  status : Nat
  body : RBody
  emailCalls : Nat
deriving DecidableEq, Repr

/-- The concatenation name, subject (or empty) and message checked for
spam by the handler. -/
def spamContent (fd : ContactFormRequest) : String :=
  fd.name ++ " " ++ fd.subject.getD "" ++ " " ++ fd.message

/-- Embeds contactFormFunction: OPTIONS preflight, method gate, rate-limit
gate, validation, spam check (success response without mail send), mail
send with the top-level catch turning a send failure into a 500
INTERNAL_SERVER_ERROR response carrying only a code, a generic message and
no internal detail. -/
def handle (st : RLState) (now : Int) (rid : String) (sendFails : Bool) (req : Req) :
    HRes × RLState :=
  if req.method = "OPTIONS" then (⟨200, RBody.empty, 0⟩, st)
  else if req.method ≠ "POST" then
    (⟨405, RBody.err "METHOD_NOT_ALLOWED" "Only POST requests are allowed", 0⟩, st)
  else
    let rl := isRateLimited now req.ip st
    if rl.1 then
      (⟨429, RBody.err "RATE_LIMIT_EXCEEDED" "Too many requests. Please try again later.", 0⟩,
        rl.2)
    else
      let vr := validateContactForm req.body
      match vr.sanitizedData with
      | none => (⟨400, RBody.err "VALIDATION_ERROR" "Invalid input data", 0⟩, rl.2)
      | some fd =>
        if isSpam (spamContent fd) then (⟨200, RBody.success rid, 0⟩, rl.2)
        else if sendFails then
          (⟨500, RBody.err "INTERNAL_SERVER_ERROR"
              "An unexpected error occurred. Please try again later.", 1⟩, rl.2)
        else (⟨200, RBody.success rid, 1⟩, rl.2)

/-- Results of a sequence of handler invocations threading the
rate-limiter state. -/
def handleChain (st : RLState) : List (Int × String × Bool × Req) → List HRes
  | [] => []
  | (now, rid, sf, req) :: rest =>
    let o := handle st now rid sf req
    o.1 :: handleChain o.2 rest

theorem rl_false (now : Int) (id : String) (st : RLState) (L : List Int)
    (hst : st id = L) (hk : ∀ t ∈ L, now - windowMs < t) (hl : L.length < maxRequests) :
    (isRateLimited now id st).1 = false ∧ (isRateLimited now id st).2 id = L ++ [now] := by
  have hfil : (st id).filter (fun time => decide (now - windowMs < time)) = L := by
    rw [hst]
    exact List.filter_eq_self.mpr fun a ha => decide_eq_true (hk a ha)
  simp only [isRateLimited]
  rw [hfil, if_neg (Nat.not_le.mpr hl)]
  exact ⟨rfl, by simp⟩

theorem rl_true (now : Int) (id : String) (st : RLState) (L : List Int)
    (hst : st id = L) (hk : ∀ t ∈ L, now - windowMs < t) (hl : maxRequests ≤ L.length) :
    (isRateLimited now id st).1 = true ∧ (isRateLimited now id st).2 = st := by
  have hfil : (st id).filter (fun time => decide (now - windowMs < time)) = L := by
    rw [hst]
    exact List.filter_eq_self.mpr fun a ha => decide_eq_true (hk a ha)
  simp only [isRateLimited]
  rw [hfil, if_pos hl]
  exact ⟨rfl, rfl⟩

theorem handle_rl (st : RLState) (now : Int) (rid : String) (sf : Bool) (req : Req)
    (hm : req.method = "POST") :
    ((isRateLimited now req.ip st).1 = false →
      (handle st now rid sf req).1.status ≠ 429 ∧
      (handle st now rid sf req).2 = (isRateLimited now req.ip st).2) ∧
    ((isRateLimited now req.ip st).1 = true →
      (handle st now rid sf req).1.status = 429 ∧
      (handle st now rid sf req).2 = (isRateLimited now req.ip st).2) := by
  constructor
  · intro hf
    rcases hv : (validateContactForm req.body).sanitizedData with _ | fd
    · simp [handle, hm, hf, hv]
    · by_cases hsp : isSpam (spamContent fd) = true
      · simp [handle, hm, hf, hv, hsp]
      · by_cases hsf : sf = true
        · simp [handle, hm, hf, hv, hsp, hsf]
        · simp [handle, hm, hf, hv, hsp, hsf]
  · intro ht
    simp [handle, hm, ht]

theorem runOp_bound (st : RLState) (hb : ∀ id, (st id).length ≤ maxRequests)
    (op : Int × RLOp) : ∀ id, ((runOp st op) id).length ≤ maxRequests := by
  rcases op with ⟨now, op⟩
  cases op with
  | remaining id2 =>
    intro id
    simp only [runOp, getRemainingRequests]
    exact hb id
  | rate id2 =>
    intro id
    simp only [runOp]
    by_cases hc :
        maxRequests ≤ ((st id2).filter fun time => decide (now - windowMs < time)).length
    · simp only [isRateLimited, if_pos hc]
      exact hb id
    · simp only [isRateLimited, if_neg hc]
      by_cases hid : id = id2
      · subst hid
        show ((if id = id then
            ((st id).filter fun time => decide (now - windowMs < time)) ++ [now]
          else st id)).length ≤ maxRequests
        rw [if_pos rfl]
        have hfl := List.length_filter_le (fun time => decide (now - windowMs < time)) (st id)
        simp only [List.length_append, List.length_cons, List.length_nil]
        rw [Nat.not_le] at hc
        simp only [maxRequests] at hc ⊢
        omega
      · show ((if id = id2 then
            ((st id2).filter fun time => decide (now - windowMs < time)) ++ [now]
          else st id)).length ≤ maxRequests
        rw [if_neg hid]
        exact hb id

theorem runOps_bound (ops : List (Int × RLOp)) :
    ∀ st : RLState, (∀ id, (st id).length ≤ maxRequests) →
      ∀ id, ((runOps ops st) id).length ≤ maxRequests := by
  induction ops with
  | nil => intro st hb id; exact hb id
  | cons op ops ih =>
    intro st hb id
    simp only [runOps, List.foldl_cons] at ih ⊢
    exact ih (runOp st op) (runOp_bound st hb op) id


/-- Boolean substring test. -/
def substrB (needle hay : String) : Bool :=
  (List.range (hay.data.length + 1)).any fun i => pre needle.data (hay.data.drop i)

theorem tokenize_plain (l : List Char) (h : ∀ c ∈ l, ¬c = '<' ∧ ¬c = '&') :
    tokenize l = l.map Tok.text := by
  induction l with
  | nil => rfl
  | cons c rest ih =>
    have hc := h c (List.mem_cons_self _ _)
    show tokenizeF ((c :: rest).length + 1) (c :: rest) = _
    rw [tokF_plain _ _ _ hc.1 hc.2]
    rw [tokenizeF_eq_tokenize _ _ (by simp only [List.length_cons]; omega)]
    rw [ih fun x hx => h x (List.mem_cons_of_mem _ hx)]
    rfl

theorem serialize_plain (l : List Char) (h : ∀ c ∈ l, ¬c = '<' ∧ ¬c = '&' ∧ ¬c = '>') :
    ((l.map Tok.text).map serializeTok).flatten = l := by
  induction l with
  | nil => rfl
  | cons c rest ih =>
    have hc := h c (List.mem_cons_self _ _)
    simp only [List.map_cons, List.flatten_cons]
    have he : serializeTok (Tok.text c) = [c] := by
      simp [serializeTok, encodeChar, hc.1, hc.2.1, hc.2.2]
    rw [he, ih fun x hx => h x (List.mem_cons_of_mem _ hx)]
    rfl

theorem sanitizeField_plain (s : String) (h : ∀ c ∈ s.data, ¬c = '<' ∧ ¬c = '&' ∧ ¬c = '>') :
    sanitizeField s = s := by
  unfold sanitizeField sanitizeWith
  rw [tokenize_plain s.data fun c hc => ⟨(h c hc).1, (h c hc).2.1⟩]
  rw [List.filter_eq_self.mpr fun t ht => by
    obtain ⟨c, hc, rfl⟩ := List.mem_map.mp ht
    rfl]
  rw [serialize_plain s.data h]

theorem nameChar_special (c : Char) (h : nameChar c = true) :
    ¬c = '<' ∧ ¬c = '&' ∧ ¬c = '>' := by
  refine ⟨?_, ?_, ?_⟩ <;> rintro rfl <;> exact absurd h (by decide)

theorem validateName_some_inv (n : Option FieldVal) (a : String)
    (h : (validateName n).2 = some a) :
    (validateName n).1 = [] ∧ (∃ s, n = some (FieldVal.str s) ∧ a = jsTrim s) ∧
      a ≠ "" ∧ a.length ≤ 100 ∧ a.data.all nameChar = true := by
  cases n with
  | none => simp [validateName] at h
  | some fv =>
    cases fv with
    | nonString => simp [validateName] at h
    | str s =>
      by_cases ht : jsTrim s = ""
      · simp [validateName, ht] at h
      · by_cases hlen : 100 < (jsTrim s).length
        · simp [validateName, ht, hlen] at h
        · by_cases hpat : (jsTrim s).data.all nameChar
          · have ha : a = jsTrim s := by
              simp [validateName, ht, hlen, hpat] at h
              exact h.symm
            subst ha
            exact ⟨by simp [validateName, ht, hlen, hpat], ⟨s, rfl, rfl⟩, ht, by omega, hpat⟩
          · simp [validateName, ht, hlen, hpat] at h

theorem validate_some_inv (n e su m : Option FieldVal) (sd : ContactFormRequest)
    (h : (validateContactForm (JsInput.obj n e su m)).sanitizedData = some sd) :
    (validateContactForm (JsInput.obj n e su m)).isValid = true ∧
    (validateContactForm (JsInput.obj n e su m)).errors = none ∧
    (validateName n).1 = [] ∧ (validateEmail e).1 = [] ∧
    (validateSubject su).1 = [] ∧ (validateMessage m).1 = [] ∧
    ∃ a b c, (validateName n).2 = some a ∧ (validateEmail e).2 = some b ∧
      (validateMessage m).2 = some c ∧
      sd.name = sanitizeField a ∧ sd.email = sanitizeField b ∧ sd.message = sanitizeField c ∧
      (sd.subject = none ∨
        ∃ t, (validateSubject su).2 = some t ∧ sd.subject = some (sanitizeField t)) := by
  by_cases he :
      (validateName n).1 ++ (validateEmail e).1 ++ (validateSubject su).1
        ++ (validateMessage m).1 = []
  · have hcomp := he
    simp only [List.append_eq_nil] at hcomp
    obtain ⟨⟨⟨hn, hee⟩, hs⟩, hm⟩ := hcomp
    obtain ⟨a, ha⟩ := validateName_nil_some n hn
    obtain ⟨b, hb⟩ := validateEmail_nil_some e hee
    obtain ⟨c, hc⟩ := validateMessage_nil_some m hm
    have hres : validateContactForm (JsInput.obj n e su m)
        = { isValid := true,
            sanitizedData := some
              { name := sanitizeField a, email := sanitizeField b,
                subject :=
                  match (validateSubject su).2 with
                  | some t => if t = "" then none else some (sanitizeField t)
                  | none => none,
                message := sanitizeField c },
            errors := none } := by
      simp [validateContactForm, hn, hee, hs, hm, ha, hb, hc]
    rw [hres] at h
    injection h with h
    refine ⟨by rw [hres], by rw [hres], hn, hee, hs, hm, a, b, c, ha, hb, hc,
      by rw [← h], by rw [← h], by rw [← h], ?_⟩
    rcases hsu : (validateSubject su).2 with _ | t
    · left
      rw [← h]
      simp [hsu]
    · by_cases hte : t = ""
      · left
        rw [← h]
        simp [hsu, hte]
      · right
        refine ⟨t, rfl, ?_⟩
        rw [← h]
        simp [hsu, hte]
  · have hne :
        ((validateName n).1 ++ (validateEmail e).1 ++ (validateSubject su).1
          ++ (validateMessage m).1).isEmpty = false := by
      rw [List.isEmpty_eq_false]
      exact he
    have hres : validateContactForm (JsInput.obj n e su m)
        = { isValid := false, sanitizedData := none,
            errors := some ((validateName n).1 ++ (validateEmail e).1
              ++ (validateSubject su).1 ++ (validateMessage m).1) } := by
      simp only [validateContactForm, hne, Bool.false_eq_true, if_false]
    rw [hres] at h
    simp at h


/-! ### Claim theorems -/

/-- C1: validateContactForm, on every untrusted input value including
non-objects, returns either a valid result carrying a sanitized submission
or an invalid result carrying a non-empty ordered list of field errors,
evaluating all fields without short-circuiting; the input name empty,
email bad, message short yields exactly three errors, on the fields name,
email and message, in schema order. -/
theorem validateContactForm_valid_or_errors :
    (∀ d : JsInput,
      ((validateContactForm d).isValid = true ∧
        (validateContactForm d).sanitizedData.isSome = true ∧
        (validateContactForm d).errors = none) ∨
      ((validateContactForm d).isValid = false ∧
        (validateContactForm d).sanitizedData = none ∧
        ∃ es, (validateContactForm d).errors = some es ∧ es ≠ [])) ∧
    (validateContactForm (JsInput.obj (some (FieldVal.str "")) (some (FieldVal.str "bad"))
        none (some (FieldVal.str "short")))).errors =
      some [⟨"name", "Name is required"⟩, ⟨"email", "Please provide a valid email address"⟩,
        ⟨"message", "Message must be at least 10 characters long"⟩] :=
  ⟨validateContactForm_cases, by decide⟩

/-- C2 counterexample: the message with a script tag passes the schema
(trimmed length 21 at validation time), yet the sanitized submission
carries message abcd of length 4, violating the message length constraint
the claim asserts for the returned fields. -/
theorem sanitize_after_validation_breaks_message_min :
    validateContactForm (JsInput.obj (some (FieldVal.str "John"))
        (some (FieldVal.str "john@example.com")) none
        (some (FieldVal.str "<script>a</script>bcd")))
      = { isValid := true,
          sanitizedData := some
            { name := "John", email := "john@example.com", subject := none,
              message := "abcd" },
          errors := none } ∧
    ("abcd" : String).length < 10 := by decide

/-- C2 amended: a sanitized submission is returned only when every schema
constraint passed on the validated (trimmed) values — the error list is
then absent and the submission fully populated — and the sanitized name
still satisfies the name constraints, its charset excluding markup;
sanitization happens after validation, so the other fields need not still
satisfy their length or trim constraints. -/
theorem sanitizedSubmission_construction :
    ∀ (n e su m : Option FieldVal) (sd : ContactFormRequest),
      (validateContactForm (JsInput.obj n e su m)).sanitizedData = some sd →
      (validateContactForm (JsInput.obj n e su m)).isValid = true ∧
      (validateContactForm (JsInput.obj n e su m)).errors = none ∧
      (validateName n).1 = [] ∧ (validateEmail e).1 = [] ∧
      (validateSubject su).1 = [] ∧ (validateMessage m).1 = [] ∧
      sd.name ≠ "" ∧ sd.name.length ≤ 100 ∧ sd.name.data.all nameChar = true := by
  intro n e su m sd h
  obtain ⟨h1, h2, h3, h4, h5, h6, a, b, c, ha, hb, hc, hna, hem, hms, hsub⟩ :=
    validate_some_inv n e su m sd h
  obtain ⟨_, _, hane, halen, hapat⟩ := validateName_some_inv n a ha
  have hid : sanitizeField a = a := by
    apply sanitizeField_plain
    intro ch hch
    exact nameChar_special ch (List.all_eq_true.mp hapat ch hch)
  rw [hna, hid]
  exact ⟨h1, h2, h3, h4, h5, h6, hane, halen, hapat⟩

/-- Witness for the amended C2 at a concrete valid input. -/
theorem sanitizedSubmission_construction_witness :
    (validateContactForm (JsInput.obj (some (FieldVal.str "John Doe"))
        (some (FieldVal.str "john@example.com")) none
        (some (FieldVal.str "This is a valid message.")))).isValid = true ∧
    (validateContactForm (JsInput.obj (some (FieldVal.str "John Doe"))
        (some (FieldVal.str "john@example.com")) none
        (some (FieldVal.str "This is a valid message.")))).errors = none ∧
    (validateName (some (FieldVal.str "John Doe"))).1 = [] ∧
    (validateEmail (some (FieldVal.str "john@example.com"))).1 = [] ∧
    (validateSubject none).1 = [] ∧
    (validateMessage (some (FieldVal.str "This is a valid message."))).1 = [] ∧
    ("John Doe" : String) ≠ "" ∧ ("John Doe" : String).length ≤ 100 ∧
    ("John Doe" : String).data.all nameChar = true :=
  sanitizedSubmission_construction _ _ _ _
    ⟨"John Doe", "john@example.com", none, "This is a valid message."⟩ (by decide)

/-- C3: six isRateLimited calls for one identifier within one 15-minute
window, on a fresh limiter, return false five times and then true; six
POST requests from that client through the handler produce five responses
that are not 429 followed by a 429 response. -/
theorem rateLimit_six_requests :
    ∀ (ip : String) (t1 t2 t3 t4 t5 t6 : Int) (r1 r2 r3 r4 r5 r6 : String)
      (f1 f2 f3 f4 f5 f6 : Bool) (q1 q2 q3 q4 q5 q6 : Req),
      q1.method = "POST" → q2.method = "POST" → q3.method = "POST" →
      q4.method = "POST" → q5.method = "POST" → q6.method = "POST" →
      q1.ip = ip → q2.ip = ip → q3.ip = ip → q4.ip = ip → q5.ip = ip → q6.ip = ip →
      t1 ≤ t2 → t2 ≤ t3 → t3 ≤ t4 → t4 ≤ t5 → t5 ≤ t6 → t6 < t1 + windowMs →
      rlChain ip emptyRL [t1, t2, t3, t4, t5, t6]
        = [false, false, false, false, false, true] ∧
      (handleChain emptyRL [(t1, r1, f1, q1), (t2, r2, f2, q2), (t3, r3, f3, q3),
          (t4, r4, f4, q4), (t5, r5, f5, q5), (t6, r6, f6, q6)]).map
          (fun o => decide (o.status = 429))
        = [false, false, false, false, false, true] := by
  intro ip t1 t2 t3 t4 t5 t6 r1 r2 r3 r4 r5 r6 f1 f2 f3 f4 f5 f6 q1 q2 q3 q4 q5 q6
  intro hm1 hm2 hm3 hm4 hm5 hm6 hi1 hi2 hi3 hi4 hi5 hi6 h12 h23 h34 h45 h56 hw
  have hWn : windowMs = 900000 := rfl
  obtain ⟨b1, s1⟩ := rl_false t1 ip emptyRL [] rfl (by simp) (by decide)
  have s1a : (isRateLimited t1 ip emptyRL).2 ip = [t1] := by simpa using s1
  obtain ⟨b2, s2⟩ := rl_false t2 ip (isRateLimited t1 ip emptyRL).2 [t1] s1a
    (by intro x hx
        simp only [List.mem_singleton] at hx
        subst hx
        omega)
    (by simp [maxRequests])
  have s2a : (isRateLimited t2 ip (isRateLimited t1 ip emptyRL).2).2 ip = [t1, t2] := by
    simpa using s2
  obtain ⟨b3, s3⟩ := rl_false t3 ip
    (isRateLimited t2 ip (isRateLimited t1 ip emptyRL).2).2 [t1, t2] s2a
    (by intro x hx
        simp only [List.mem_cons, List.not_mem_nil, or_false] at hx
        rcases hx with rfl | rfl <;> omega)
    (by simp [maxRequests])
  have s3a : (isRateLimited t3 ip
      (isRateLimited t2 ip (isRateLimited t1 ip emptyRL).2).2).2 ip = [t1, t2, t3] := by
    simpa using s3
  obtain ⟨b4, s4⟩ := rl_false t4 ip
    (isRateLimited t3 ip (isRateLimited t2 ip (isRateLimited t1 ip emptyRL).2).2).2
    [t1, t2, t3] s3a
    (by intro x hx
        simp only [List.mem_cons, List.not_mem_nil, or_false] at hx
        rcases hx with rfl | rfl | rfl <;> omega)
    (by simp [maxRequests])
  have s4a : (isRateLimited t4 ip (isRateLimited t3 ip
      (isRateLimited t2 ip (isRateLimited t1 ip emptyRL).2).2).2).2 ip
      = [t1, t2, t3, t4] := by
    simpa using s4
  obtain ⟨b5, s5⟩ := rl_false t5 ip
    (isRateLimited t4 ip (isRateLimited t3 ip
      (isRateLimited t2 ip (isRateLimited t1 ip emptyRL).2).2).2).2
    [t1, t2, t3, t4] s4a
    (by intro x hx
        simp only [List.mem_cons, List.not_mem_nil, or_false] at hx
        rcases hx with rfl | rfl | rfl | rfl <;> omega)
    (by simp [maxRequests])
  have s5a : (isRateLimited t5 ip (isRateLimited t4 ip (isRateLimited t3 ip
      (isRateLimited t2 ip (isRateLimited t1 ip emptyRL).2).2).2).2).2 ip
      = [t1, t2, t3, t4, t5] := by
    simpa using s5
  obtain ⟨b6, s6⟩ := rl_true t6 ip
    (isRateLimited t5 ip (isRateLimited t4 ip (isRateLimited t3 ip
      (isRateLimited t2 ip (isRateLimited t1 ip emptyRL).2).2).2).2).2
    [t1, t2, t3, t4, t5] s5a
    (by intro x hx
        simp only [List.mem_cons, List.not_mem_nil, or_false] at hx
        rcases hx with rfl | rfl | rfl | rfl | rfl <;> omega)
    (by simp [maxRequests])
  refine ⟨?_, ?_⟩
  · simp only [rlChain]
    rw [b1, b2, b3, b4, b5, b6]
  · have g1 := (handle_rl emptyRL t1 r1 f1 q1 hm1).1 (by rw [hi1]; exact b1)
    have g1s : (handle emptyRL t1 r1 f1 q1).2 = (isRateLimited t1 ip emptyRL).2 := by
      rw [g1.2, hi1]
    have g2 := (handle_rl (handle emptyRL t1 r1 f1 q1).2 t2 r2 f2 q2 hm2).1
      (by rw [hi2, g1s]; exact b2)
    have g2s : (handle (handle emptyRL t1 r1 f1 q1).2 t2 r2 f2 q2).2
        = (isRateLimited t2 ip (isRateLimited t1 ip emptyRL).2).2 := by
      rw [g2.2, hi2, g1s]
    have g3 := (handle_rl (handle (handle emptyRL t1 r1 f1 q1).2 t2 r2 f2 q2).2
        t3 r3 f3 q3 hm3).1 (by rw [hi3, g2s]; exact b3)
    have g3s : (handle (handle (handle emptyRL t1 r1 f1 q1).2 t2 r2 f2 q2).2
        t3 r3 f3 q3).2
        = (isRateLimited t3 ip (isRateLimited t2 ip (isRateLimited t1 ip emptyRL).2).2).2 := by
      rw [g3.2, hi3, g2s]
    have g4 := (handle_rl (handle (handle (handle emptyRL t1 r1 f1 q1).2 t2 r2 f2 q2).2
        t3 r3 f3 q3).2 t4 r4 f4 q4 hm4).1 (by rw [hi4, g3s]; exact b4)
    have g4s : (handle (handle (handle (handle emptyRL t1 r1 f1 q1).2 t2 r2 f2 q2).2
        t3 r3 f3 q3).2 t4 r4 f4 q4).2
        = (isRateLimited t4 ip (isRateLimited t3 ip
            (isRateLimited t2 ip (isRateLimited t1 ip emptyRL).2).2).2).2 := by
      rw [g4.2, hi4, g3s]
    have g5 := (handle_rl (handle (handle (handle (handle emptyRL t1 r1 f1 q1).2
        t2 r2 f2 q2).2 t3 r3 f3 q3).2 t4 r4 f4 q4).2 t5 r5 f5 q5 hm5).1
      (by rw [hi5, g4s]; exact b5)
    have g5s : (handle (handle (handle (handle (handle emptyRL t1 r1 f1 q1).2
        t2 r2 f2 q2).2 t3 r3 f3 q3).2 t4 r4 f4 q4).2 t5 r5 f5 q5).2
        = (isRateLimited t5 ip (isRateLimited t4 ip (isRateLimited t3 ip
            (isRateLimited t2 ip (isRateLimited t1 ip emptyRL).2).2).2).2).2 := by
      rw [g5.2, hi5, g4s]
    have g6 := (handle_rl (handle (handle (handle (handle (handle emptyRL t1 r1 f1 q1).2
        t2 r2 f2 q2).2 t3 r3 f3 q3).2 t4 r4 f4 q4).2 t5 r5 f5 q5).2 t6 r6 f6 q6 hm6).2
      (by rw [hi6, g5s]; exact b6)
    simp only [handleChain, List.map_cons, List.map_nil]
    rw [decide_eq_false g1.1, decide_eq_false g2.1, decide_eq_false g3.1,
      decide_eq_false g4.1, decide_eq_false g5.1, g6.1]
    rfl

/-- Witness for C3 at concrete times and requests. -/
theorem rateLimit_six_requests_witness :
    rlChain "ip" emptyRL [1, 2, 3, 4, 5, 6] = [false, false, false, false, false, true] ∧
    (handleChain emptyRL [(1, "r", false, ⟨"POST", "ip", JsInput.nonObject⟩),
        (2, "r", false, ⟨"POST", "ip", JsInput.nonObject⟩),
        (3, "r", false, ⟨"POST", "ip", JsInput.nonObject⟩),
        (4, "r", false, ⟨"POST", "ip", JsInput.nonObject⟩),
        (5, "r", false, ⟨"POST", "ip", JsInput.nonObject⟩),
        (6, "r", false, ⟨"POST", "ip", JsInput.nonObject⟩)]).map
        (fun o => decide (o.status = 429))
      = [false, false, false, false, false, true] :=
  rateLimit_six_requests "ip" 1 2 3 4 5 6 "r" "r" "r" "r" "r" "r"
    false false false false false false
    ⟨"POST", "ip", JsInput.nonObject⟩ ⟨"POST", "ip", JsInput.nonObject⟩
    ⟨"POST", "ip", JsInput.nonObject⟩ ⟨"POST", "ip", JsInput.nonObject⟩
    ⟨"POST", "ip", JsInput.nonObject⟩ ⟨"POST", "ip", JsInput.nonObject⟩
    rfl rfl rfl rfl rfl rfl rfl rfl rfl rfl rfl rfl
    (by decide) (by decide) (by decide) (by decide) (by decide) (by decide)

/-- C4 counterexample: content with three embedded URLs separated by
spaces; the URL regex of the source requires the URLs to be adjacent, so
isSpam returns false although the claim reading of the heuristic demands
true. -/
theorem separated_urls_not_flagged :
    3 ≤ urlCount (lowerStr "see http://a.com http://b.com http://c.com ok").data ∧
    isSpam "see http://a.com http://b.com http://c.com ok" = false := by decide

/-- C4 amended: isSpam lower-cases the concatenated text and returns true
exactly when some heuristic matches the lower-cased text — a known spam
keyword phrase, three or more URLs concatenated consecutively with no
whitespace between them, a single non-line-terminator character repeated
11 or more times consecutively, or a run of 20 or more consecutive
non-ASCII characters; any single match is conclusive, with no scoring or
weighting. -/
theorem isSpam_heuristics :
    ∀ s : String,
      isSpam s = true ↔
        (KeywordHeuristic (lowerStr s).data ∨ URLHeuristic (lowerStr s).data ∨
          RepeatHeuristic (lowerStr s).data ∨ NonAsciiHeuristic (lowerStr s).data) :=
  isSpam_iff

/-- C5: a validated submission whose concatenated content is classified
spam receives a 200 success response indistinguishable from a real
acceptance, and the mail-send collaborator is never invoked; the
Click-here message is classified spam. -/
theorem spam_silent_success :
    (∀ (st : RLState) (now : Int) (rid : String) (sf : Bool) (req : Req)
        (fd : ContactFormRequest),
      req.method = "POST" →
      (isRateLimited now req.ip st).1 = false →
      (validateContactForm req.body).sanitizedData = some fd →
      isSpam (spamContent fd) = true →
      (handle st now rid sf req).1 = ⟨200, RBody.success rid, 0⟩) ∧
    isSpam (spamContent ⟨"John Doe", "john@example.com", none,
      "Click here for free money and casino winnings!"⟩) = true := by
  constructor
  · intro st now rid sf req fd hm hf hv hsp
    simp [handle, hm, hf, hv, hsp]
  · decide

/-- Witness for C5: the spam submission is answered 200 with zero
mail-send invocations. -/
theorem spam_silent_success_witness :
    (handle emptyRL 0 "rid" false ⟨"POST", "9.9.9.9", JsInput.obj
        (some (FieldVal.str "John Doe")) (some (FieldVal.str "john@example.com")) none
        (some (FieldVal.str "Click here for free money and casino winnings!"))⟩).1
      = ⟨200, RBody.success "rid", 0⟩ :=
  spam_silent_success.1 emptyRL 0 "rid" false _
    ⟨"John Doe", "john@example.com", none,
      "Click here for free money and casino winnings!"⟩
    rfl (by decide) (by decide) (by decide)

/-- C6: the contact-form fields are sanitized in the strict no-tag mode,
so every field of a returned submission contains no angle bracket and thus
no HTML tag; the script and img injections of the claim sanitize to output
without the script or img substrings. -/
theorem sanitizer_strips_markup :
    (∀ (d : JsInput) (sd : ContactFormRequest),
      (validateContactForm d).sanitizedData = some sd →
      '<' ∉ sd.name.data ∧ '<' ∉ sd.email.data ∧
      '<' ∉ (sd.subject.getD "").data ∧ '<' ∉ sd.message.data) ∧
    substrB "<script>" (sanitizeField "<script>alert(1)</script>John") = false ∧
    substrB "<img" (sanitizeField "Hello <img onerror=alert(1)> world") = false := by
  refine ⟨?_, by decide, by decide⟩
  intro d sd h
  cases d with
  | nonObject => simp [validateContactForm] at h
  | obj n e su m =>
    obtain ⟨_, _, _, _, _, _, a, b, c, _, _, _, hna, hem, hms, hsub⟩ :=
      validate_some_inv n e su m sd h
    refine ⟨by rw [hna]; exact sanitizeField_no_lt a,
      by rw [hem]; exact sanitizeField_no_lt b, ?_,
      by rw [hms]; exact sanitizeField_no_lt c⟩
    rcases hsub with hnone | ⟨t, _, hsome⟩
    · rw [hnone]
      simp
    · rw [hsome]
      simp only [Option.getD_some]
      exact sanitizeField_no_lt t

/-- Witness for C6 at a concrete valid submission. -/
theorem sanitizer_strips_markup_witness :
    '<' ∉ ("John Doe" : String).data ∧ '<' ∉ ("john@example.com" : String).data ∧
    '<' ∉ ((none : Option String).getD "").data ∧
    '<' ∉ ("This is a valid message." : String).data :=
  sanitizer_strips_markup.1 (JsInput.obj (some (FieldVal.str "John Doe"))
      (some (FieldVal.str "john@example.com")) none
      (some (FieldVal.str "This is a valid message.")))
    ⟨"John Doe", "john@example.com", none, "This is a valid message."⟩ (by decide)

/-- C7: the sanitizer is idempotent in both modes: sanitizing the output
of sanitizeHtml with sanitizeHtml, or of the strict field mode with the
strict field mode, returns it byte for byte. -/
theorem sanitize_idempotent :
    ∀ s : String, sanitizeHtml (sanitizeHtml s) = sanitizeHtml s ∧
      sanitizeField (sanitizeField s) = sanitizeField s :=
  fun s => ⟨sanitizeWith_idem allowedTags (fun _ hx => hx) s,
    sanitizeWith_idem [] (fun _ hx => absurd hx (List.not_mem_nil _)) s⟩

/-- C8: when the mail-send collaborator throws, the top-level catch of the
handler converts the failure into a 500 response with code
INTERNAL_SERVER_ERROR whose body carries only the generic message and no
internal detail, and the send is not retried: exactly one invocation. -/
theorem send_failure_internal_error :
    ∀ (st : RLState) (now : Int) (rid : String) (req : Req) (fd : ContactFormRequest),
      req.method = "POST" →
      (isRateLimited now req.ip st).1 = false →
      (validateContactForm req.body).sanitizedData = some fd →
      isSpam (spamContent fd) = false →
      (handle st now rid true req).1
        = ⟨500, RBody.err "INTERNAL_SERVER_ERROR"
            "An unexpected error occurred. Please try again later.", 1⟩ := by
  intro st now rid req fd hm hf hv hsp
  simp [handle, hm, hf, hv, hsp]

/-- Witness for C8 at a concrete valid non-spam submission. -/
theorem send_failure_internal_error_witness :
    (handle emptyRL 0 "rid" true ⟨"POST", "9.9.9.9", JsInput.obj
        (some (FieldVal.str "John Doe")) (some (FieldVal.str "john@example.com")) none
        (some (FieldVal.str "This is a valid message."))⟩).1
      = ⟨500, RBody.err "INTERNAL_SERVER_ERROR"
          "An unexpected error occurred. Please try again later.", 1⟩ :=
  send_failure_internal_error emptyRL 0 "rid" _
    ⟨"John Doe", "john@example.com", none, "This is a valid message."⟩
    rfl (by decide) (by decide) (by decide)

/-- C9: getRemainingRequests returns max(0, 5 − n), n the number of the
stored timestamps of the identifier still inside the trailing 15-minute
window, and leaves the stored state of every identifier unchanged. -/
theorem getRemainingRequests_spec :
    ∀ (now : Int) (id : String) (st : RLState),
      (getRemainingRequests now id st).2 = st ∧
      ((getRemainingRequests now id st).1 : Int)
        = max 0 (5 - (((st id).filter fun t => decide (now - windowMs < t)).length : Int)) := by
  intro now id st
  refine ⟨rfl, ?_⟩
  simp only [getRemainingRequests]
  rw [Int.toNat_of_nonneg (le_max_left _ _)]
  norm_num [maxRequests]

/-- C10: on the limited path isRateLimited leaves the stored entry
unmodified (the pruned list is not written back), and after any sequence
of limiter operations from the empty state every identifier's stored
timestamps restricted to the trailing window number at most the cap of 5. -/
theorem rateLimiter_window_bound :
    (∀ (now : Int) (id : String) (st : RLState),
      maxRequests ≤ ((st id).filter fun t => decide (now - windowMs < t)).length →
      (isRateLimited now id st).2 = st) ∧
    (∀ (ops : List (Int × RLOp)) (now : Int) (id : String),
      (((runOps ops emptyRL) id).filter fun t => decide (now - windowMs < t)).length
        ≤ maxRequests) := by
  constructor
  · intro now id st h
    simp only [isRateLimited]
    rw [if_pos h]
  · intro ops now id
    exact le_trans (List.length_filter_le _ _)
      (runOps_bound ops emptyRL (fun _ => by simp [emptyRL]) id)

/-- Witness for C10: a saturated entry is left unchanged on the limited
path, and a concrete operation sequence respects the window bound. -/
theorem rateLimiter_window_bound_witness :
    (isRateLimited 0 "a" (fun _ => [0, 0, 0, 0, 0])).2 = (fun _ => [0, 0, 0, 0, 0]) ∧
    ((((runOps [(0, RLOp.rate "a")] emptyRL) "a").filter
        fun t => decide ((0 : Int) - windowMs < t)).length ≤ maxRequests) :=
  ⟨rateLimiter_window_bound.1 0 "a" _ (by decide),
    rateLimiter_window_bound.2 [(0, RLOp.rate "a")] 0 "a"⟩


end ContactForm
